import Mathlib

/-!
Verification of the hiero-message-box repository.

The definitions below are a shallow embedding of `src/lib/hedera.js`
(client initialization, HCS message submission, and mirror-node topic
message queries) together with a model of the external read-side query
service (the mirror node, spec section 6) and a spec-modelled Envelope
Codec (spec section 4.2; `src/lib/common.js` is not part of the sources).

JavaScript conventions carried over into the embedding:
  - `process.env` values are `Option String`; an unset variable is `none`.
  - JS truthiness for the values that occur here: `undefined` and the
    empty string are falsy for strings, `0` is falsy for numbers.
  - asynchronous results are returned directly; network receipts and the
    topic log are explicit inputs.
-/

deriving instance DecidableEq for Except

namespace Hiero

/-- JS `String.prototype.toLowerCase` on the ASCII strings that occur as
configuration values: lower-cases each character. -/
def toLowerCase (s : String) : String := String.mk (s.data.map Char.toLower)

/-- A topic log entry as returned by the mirror node: its consensus
sequence number and (base64) payload. -/
structure Entry where
  sequence_number : Nat
  message : String
deriving DecidableEq

/-- Options accepted by `queryTopicMessages` (src/lib/hedera.js, lines
142-151): all fields optional, `none` models a JS `undefined` field. -/
structure QueryOptions where
  limit : Option Nat := none
  order : Option String := none
  sequenceNumber : Option Nat := none
  operator : Option String := none

/-- The effective parameters of one mirror-node request: exactly the
parameters that `queryTopicMessages` appends to its `URLSearchParams`. -/
structure MirrorRequest where
  limit : Option Nat
  order : Option String
  seqFilter : Option (String × Nat)

/-- The parameter-building logic of `queryTopicMessages` (lines 153-162):
`if (options.limit) ...`, `if (options.order) ...`,
`if (options.sequenceNumber && options.operator) ...`.  JS truthiness
makes a `0` limit, a `0` sequence number, an empty order and an empty
operator falsy, so those parameters are omitted. -/
def buildRequest (o : QueryOptions) : MirrorRequest where
  limit := match o.limit with
    | some l => if l = 0 then none else some l
    | none => none
  order := match o.order with
    | some s => if s = "" then none else some s
    | none => none
  seqFilter := match o.sequenceNumber, o.operator with
    | some n, some op => if n = 0 ∨ op = "" then none else some (op, n)
    | _, _ => none

/-- The `URLSearchParams` key/value pairs produced for a request, in the
append order of the source (limit, order, sequencenumber), with the
sequence filter rendered as `op:n` (line 158-161 of the source). -/
def renderParams (r : MirrorRequest) : List (String × String) :=
  (match r.limit with | some l => [("limit", toString l)] | none => [])
    ++ (match r.order with | some s => [("order", s)] | none => [])
    ++ (match r.seqFilter with
        | some (op, n) => [("sequencenumber", op ++ ":" ++ toString n)]
        | none => [])

/-- The query-string parameters `queryTopicMessages` sends for given
options. -/
def queryParams (o : QueryOptions) : List (String × String) :=
  renderParams (buildRequest o)

/-- Semantics of the mirror node `sequencenumber=<op>:<n>` filter
(spec section 6): which entries a given operator keeps. -/
def seqOpHolds (op : String) (n s : Nat) : Bool :=
  if op = "gt" then decide (n < s)
  else if op = "gte" then decide (n ≤ s)
  else if op = "lt" then decide (s < n)
  else if op = "lte" then decide (s ≤ n)
  else true

/-- Modelled from the spec: the external read-side query service (spec
section 6), which is not part of this repository.  The topic log is a
list of entries kept in ascending sequence order (the log is append-only
and sequence-numbered); a request filters by the `sequencenumber`
parameter, orders ascending (the service default) or descending, and
truncates to the requested `limit` (service default page size 25). -/
def mirrorExec (log : List Entry) (r : MirrorRequest) : List Entry :=
  let filtered := match r.seqFilter with
    | some (op, n) => log.filter (fun (m : Entry) => seqOpHolds op n m.sequence_number)
    | none => log
  let ordered := if r.order = some "desc" then filtered.reverse else filtered
  ordered.take (r.limit.getD 25)

/-- `queryTopicMessages` (src/lib/hedera.js, lines 151-188): builds the
request parameters from the options and performs the mirror-node query.
The HTTP/JSON mechanics are external; the response's message list is
returned. -/
def queryTopicMessages (log : List Entry) (options : QueryOptions) : List Entry :=
  mirrorExec log (buildRequest options)

/-- `getNewMessages` (src/lib/hedera.js, lines 213-225): one query with
`gt:afterSequenceNumber`, ascending order and limit 100; returns the
response's messages (`response.messages || []`). -/
def getNewMessages (log : List Entry) (afterSequenceNumber : Nat) : List Entry :=
  queryTopicMessages log
    { sequenceNumber := some afterSequenceNumber, operator := some "gt",
      order := some "asc", limit := some 100 }

/-- `getLatestSequenceNumber` (src/lib/hedera.js, lines 195-205): one
descending query with limit 1, then
`response.messages?.[0]?.sequence_number || null`; a sequence number of
`0` is falsy in JS and therefore also yields `null`. -/
def getLatestSequenceNumber (log : List Entry) : Option Nat :=
  match (queryTopicMessages log { order := some "desc", limit := some 1 }).head? with
  | some m => if m.sequence_number = 0 then none else some m.sequence_number
  | none => none

/-- The JS condition `endSequence && msg.sequence_number > endSequence`
of `getMessagesInRange` (line 272): an absent or zero `endSequence` is
falsy, so the bound check is skipped. -/
def jsEndCheck (endSequence : Option Nat) (s : Nat) : Bool :=
  match endSequence with
  | some e => if e = 0 then false else decide (e < s)
  | none => false

/-- The inner `for (const msg of response.messages)` loop of
`getMessagesInRange` (lines 270-281): returns the grown accumulator, the
updated `lastSequence`, and whether the end bound was passed
(`hasMore = false; break`). -/
def processPage (startSequence : Nat) (endSequence : Option Nat) :
    List Entry → Nat → List Entry → List Entry × Nat × Bool
  | [], lastSequence, acc => (acc, lastSequence, false)
  | m :: rest, lastSequence, acc =>
    if jsEndCheck endSequence m.sequence_number then (acc, lastSequence, true)
    else
      processPage startSequence endSequence rest m.sequence_number
        (if startSequence ≤ m.sequence_number then acc ++ [m] else acc)

/-- The `while (hasMore)` loop of `getMessagesInRange` (lines 257-287),
parametrized over the query response source (in the source this is the
`queryTopicMessages` call of line 258) and an explicit fuel bound that
embeds the possibly non-terminating JS loop: `none` means the fuel was
exhausted, i.e. the loop ran longer than the given bound. -/
def rangeLoop (query : QueryOptions → List Entry) (startSequence : Nat)
    (endSequence : Option Nat) : Nat → Nat → List Entry → Option (List Entry)
  | 0, _, _ => none
  | fuel + 1, lastSequence, acc =>
    let page := query
      { sequenceNumber := some lastSequence, operator := some "gt",
        order := some "asc", limit := some 100 }
    if page.isEmpty then some acc
    else
      let res := processPage startSequence endSequence page lastSequence acc
      if res.2.2 then some res.1
      else if page.length < 100 then some res.1
      else rangeLoop query startSequence endSequence fuel res.2.1 res.1

/-- `getMessagesInRange` (src/lib/hedera.js, lines 251-293): starts the
drain loop at `lastSequence = startSequence - 1` with an empty
accumulator. -/
def getMessagesInRange (log : List Entry) (startSequence : Nat)
    (endSequence : Option Nat) (fuel : Nat) : Option (List Entry) :=
  rangeLoop (queryTopicMessages log) startSequence endSequence fuel
    (startSequence - 1) []

/-- A query-response source that violates the `gt` filter contract: it
always answers with the same full page of 100 identical entries of
sequence number 5, whatever the requested bound. -/
def badQuery (_ : QueryOptions) : List Entry :=
  List.replicate 100 ⟨5, "stuck"⟩

/-- A concrete topic log with entries of sequence numbers 1..n. -/
def mkLog (n : Nat) : List Entry :=
  (List.range n).map (fun i => ⟨i + 1, ""⟩)

/-- The three-entry log of the spec's fetchNew example. -/
def log3 : List Entry := [⟨1, "m1"⟩, ⟨2, "m2"⟩, ⟨3, "m3"⟩]

/-- The environment variables read by `initializeClient`. -/
structure Env where
  hederaAccountId : Option String := none
  hederaPrivateKey : Option String := none
  hederaNetwork : Option String := none

/-- The constructed Hedera client: which network it targets and the
operator credentials set on it. -/
structure HederaClient where
  network : String
  operatorAccountId : String
  operatorKey : String
deriving DecidableEq

/-- JS truthiness of an environment variable: unset (`undefined`) and
the empty string are falsy. -/
def jsTruthyStr : Option String → Bool
  | some s => decide (s ≠ "")
  | none => false

/-- `initializeClient` (src/lib/hedera.js, lines 29-52): reads
`HEDERA_ACCOUNT_ID`, `HEDERA_PRIVATE_KEY` and
`HEDERA_NETWORK || "testnet"`; throws when either credential is missing
or empty; otherwise builds a mainnet client exactly when
`network.toLowerCase() === "mainnet"`, else a testnet client, and sets
the operator from the two credentials. -/
def initializeClient (env : Env) : Except String HederaClient :=
  let operatorId := env.hederaAccountId
  let operatorKey := env.hederaPrivateKey
  let network := match env.hederaNetwork with
    | some s => if s = "" then "testnet" else s
    | none => "testnet"
  if !jsTruthyStr operatorId || !jsTruthyStr operatorKey then
    .error "✗ Please set HEDERA_ACCOUNT_ID and HEDERA_PRIVATE_KEY environment variables"
  else
    .ok { network := if toLowerCase network = "mainnet" then "mainnet" else "testnet",
          operatorAccountId := operatorId.getD "",
          operatorKey := operatorKey.getD "" }

/-- A transaction receipt: its status string and the topic sequence
number the network assigned to the submitted message. -/
structure TransactionReceipt where
  status : String
  topicSequenceNumber : Nat
deriving DecidableEq

/-- The result object of `submitMessageToHCS`: the fields it actually
constructs (lines 135 and 138 of the source). -/
structure SubmitResult where
  success : Bool
  topicId : Option String := none
  error : Option String := none
deriving DecidableEq

/-- `isTransactionSuccessful` (src/lib/hedera.js, lines 19-21). -/
def isTransactionSuccessful (receipt : TransactionReceipt) : Bool :=
  receipt.status == "SUCCESS"

/-- `submitMessageToHCS` (src/lib/hedera.js, lines 125-139): submits the
message, obtains the receipt (here an explicit input), and returns
`{success: true, topicId}` on success, `{success: false, error}`
otherwise. -/
def submitMessageToHCS (topicId : String) (message : String)
    (receipt : TransactionReceipt) : SubmitResult :=
  if isTransactionSuccessful receipt then
    { success := true, topicId := some topicId }
  else
    { success := false, error := some receipt.status }

/-- Modelled from the spec: the secp256k1 group of the ECIES scheme
(spec section 4.2; `src/lib/common.js` is not among the sources).  The
cyclic group is modelled multiplicatively: a scalar `x` has public point
`secpG ^ x % secpP`, and ECDH of a scalar with a point is modular
exponentiation, so the shared secret is commutative in the two key
pairs exactly as elliptic-curve Diffie-Hellman is. -/
def secpP : Nat := 2147483647

/-- Modelled from the spec: the group generator of the ECIES model. -/
def secpG : Nat := 7

/-- Modelled from the spec: SHA-256, used here only to derive the
symmetric key from the ECDH shared secret; modelled as a fixed
deterministic mixing function. -/
def sha256Model (x : Nat) : Nat :=
  (x * 2654435761 + 2654435769) % 4294967296

/-- Modelled from the spec: the keystream of the AES-256 symmetric
layer, one byte per position, determined by key and IV. -/
def keystream (key iv : Nat) (n : Nat) : List Nat :=
  (List.range n).map (fun i => sha256Model (key + iv * 65537 + i) % 256)

/-- Modelled from the spec: symmetric encryption under the session key
and IV (AES is modelled as XOR against the key/IV-determined
keystream). -/
def symEncrypt (key iv : Nat) (data : List Nat) : List Nat :=
  List.zipWith Nat.xor data (keystream key iv data.length)

/-- Modelled from the spec: symmetric decryption, the inverse XOR
against the same keystream. -/
def symDecrypt (key iv : Nat) (data : List Nat) : List Nat :=
  List.zipWith Nat.xor data (keystream key iv data.length)

/-- Modelled from the spec: the AES-GCM authentication tag over key, IV
and ciphertext. -/
def tagModel (key iv : Nat) (ct : List Nat) : Nat :=
  sha256Model (key + iv * 131 + ct.foldl (fun a b => a * 256 + b % 256) 0)

/-- Modelled from the spec: the scheme-tagged envelope (spec section 3):
RSA carries the wrapped session key, IV and ciphertext; ECIES carries
the ephemeral public key, IV, ciphertext, GCM tag and curve name. -/
inductive Envelope where
  | rsa (encryptedKey : Nat) (iv : Nat) (encryptedData : List Nat)
  | ecies (ephemeralPublicKey : Nat) (iv : Nat) (encryptedData : List Nat)
      (authTag : Nat) (curve : String)
deriving DecidableEq

/-- Modelled from the spec: a recipient's published public key record,
tagged by scheme.  RSA is a modulus/exponent pair; ECIES is a group
point. -/
inductive PublicKeyRecord where
  | rsa (n e : Nat)
  | ecies (point : Nat)

/-- Modelled from the spec: the matching private key, tagged by
scheme. -/
inductive PrivateKeyRecord where
  | rsa (n d : Nat)
  | ecies (scalar : Nat)

/-- The randomness an encryption draws: the fresh AES session key (RSA
path) or the fresh ephemeral scalar (ECIES path), and the fresh IV. -/
structure EncRandomness where
  sessionKey : Nat
  iv : Nat

/-- Modelled from the spec: `encryptMessage` (spec section 4.2),
dispatching purely on the recipient key's scheme.  RSA: wrap the random
AES session key with the recipient key (modular exponentiation models
RSA-OAEP) and encrypt the plaintext under it.  ECIES: generate the
ephemeral key pair, take ECDH with the recipient point, derive the
symmetric key by hashing the shared secret, encrypt, and record the
authentication tag and curve. -/
def encryptMessage (plaintext : List Nat) (recipientPublicKey : PublicKeyRecord)
    (rnd : EncRandomness) : Envelope :=
  match recipientPublicKey with
  | .rsa n e =>
    .rsa ((rnd.sessionKey ^ e) % n) rnd.iv
      (symEncrypt rnd.sessionKey rnd.iv plaintext)
  | .ecies point =>
    let ephemeralPublicKey := (secpG ^ rnd.sessionKey) % secpP
    let shared := (point ^ rnd.sessionKey) % secpP
    let key := sha256Model shared
    let ct := symEncrypt key rnd.iv plaintext
    .ecies ephemeralPublicKey rnd.iv ct (tagModel key rnd.iv ct) "secp256k1"

/-- Modelled from the spec: the decryption error taxonomy relevant to
the codec (spec sections 4.2 and 7). -/
inductive DecryptError where
  | schemeMismatch
  | authenticationFailed
deriving DecidableEq

/-- Modelled from the spec: `decryptMessage` (spec section 4.2), picking
the decryption path from the envelope's scheme tag; a tag that does not
match the private key's scheme is a `schemeMismatch`; a failed GCM tag
check is `authenticationFailed`. -/
def decryptMessage (envelope : Envelope) (privateKey : PrivateKeyRecord) :
    Except DecryptError (List Nat) :=
  match envelope, privateKey with
  | .rsa encryptedKey iv encryptedData, .rsa n d =>
    let key := (encryptedKey ^ d) % n
    .ok (symDecrypt key iv encryptedData)
  | .ecies ephemeralPublicKey iv encryptedData authTag _, .ecies scalar =>
    let shared := (ephemeralPublicKey ^ scalar) % secpP
    let key := sha256Model shared
    if tagModel key iv encryptedData = authTag then
      .ok (symDecrypt key iv encryptedData)
    else
      .error .authenticationFailed
  | _, _ => .error .schemeMismatch

/-- The pointwise form of the inner loop's continue condition of
`getMessagesInRange`: the entry does not trip the end-bound break. -/
def endOkB (endSequence : Option Nat) (m : Entry) : Bool :=
  !(jsEndCheck endSequence m.sequence_number)

/-- The `lastSequence` value after scanning a list of entries: the last
entry's sequence number, or the start value for an empty list. -/
def lastSeqAux (l : Nat) (xs : List Entry) : Nat :=
  xs.foldl (fun _ m => m.sequence_number) l

lemma length_keystream (key iv n : Nat) : (keystream key iv n).length = n := by
  simp [keystream]

lemma zipWith_xor_cancel :
    ∀ (p ks : List Nat), p.length ≤ ks.length →
      List.zipWith Nat.xor (List.zipWith Nat.xor p ks) ks = p
  | [], _, _ => by simp
  | a :: p, b :: ks, h => by
    simp only [List.zipWith_cons_cons]
    refine congrArg₂ List.cons ?_ (zipWith_xor_cancel p ks (Nat.le_of_succ_le_succ h))
    show a ^^^ b ^^^ b = a
    rw [Nat.xor_assoc, Nat.xor_self, Nat.xor_zero]

lemma symDecrypt_symEncrypt (key iv : Nat) (p : List Nat) :
    symDecrypt key iv (symEncrypt key iv p) = p := by
  have hlen : (symEncrypt key iv p).length = p.length := by
    simp [symEncrypt, length_keystream]
  rw [symDecrypt, hlen]
  exact zipWith_xor_cancel p _ (by simp [length_keystream])

/-- C1: for every plaintext and for each of the two schemes, decrypting
the envelope produced by `encryptMessage` under the recipient's public
key with the matching private key returns exactly the plaintext.  The
RSA key pair is assumed well-formed (unwrapping recovers the wrapped
session key: `k ^ (e * d) % n = k` for the drawn session key `k`); the
ECIES public key is the group point of the private scalar `x`. -/
theorem c1_encrypt_decrypt_roundtrip (P : List Nat) (n e d k iv : Nat)
    (x eph iv2 : Nat) (hrsa : k ^ (e * d) % n = k) :
    decryptMessage (encryptMessage P (.rsa n e) ⟨k, iv⟩) (.rsa n d) = .ok P ∧
    decryptMessage (encryptMessage P (.ecies ((secpG ^ x) % secpP)) ⟨eph, iv2⟩)
      (.ecies x) = .ok P := by
  constructor
  · simp only [encryptMessage, decryptMessage]
    have hkey : ((k ^ e % n) ^ d) % n = k := by
      rw [← Nat.pow_mod, ← pow_mul]; exact hrsa
    rw [hkey, symDecrypt_symEncrypt]
  · simp only [encryptMessage, decryptMessage]
    have hshared : (((secpG ^ eph) % secpP) ^ x) % secpP
        = (((secpG ^ x) % secpP) ^ eph) % secpP := by
      rw [← Nat.pow_mod, ← Nat.pow_mod, ← pow_mul, ← pow_mul, mul_comm]
    rw [hshared, if_pos rfl, symDecrypt_symEncrypt]

/-- C1 witness: the round trip evaluated at a concrete plaintext with a
concrete valid RSA key pair (n = 33, e = 3, d = 7, session key 5) and a
concrete ECIES scalar. -/
theorem c1_encrypt_decrypt_roundtrip_witness :
    decryptMessage (encryptMessage [1, 2, 3, 255] (.rsa 33 3) ⟨5, 9⟩)
        (.rsa 33 7) = .ok [1, 2, 3, 255] ∧
    decryptMessage (encryptMessage [1, 2, 3, 255]
        (.ecies ((secpG ^ 11) % secpP)) ⟨6, 4⟩) (.ecies 11)
      = .ok [1, 2, 3, 255] :=
  c1_encrypt_decrypt_roundtrip [1, 2, 3, 255] 33 3 7 5 9 11 6 4 (by decide)

/-- C3: with cursor 0 and a log of exactly the three entries of sequence
numbers 1, 2, 3, `getNewMessages` returns the three entries in
ascending sequence order in one batch (one query suffices). -/
theorem c3_three_entries_drained : getNewMessages log3 0 = log3 := by decide

/-- C2 counterexample: with cursor 0 and a backlog of 101 entries
(sequence numbers 1..101), `getNewMessages` returns only 100 entries
and omits the entry of sequence number 101 even though its sequence
number exceeds the cursor — the function does not re-fetch after a
full-sized page. -/
theorem c2_counterexample :
    (⟨101, ""⟩ : Entry) ∈ mkLog 101 ∧ (0 : Nat) < 101 ∧
    (getNewMessages (mkLog 101) 0).length = 100 ∧
    (⟨101, ""⟩ : Entry) ∉ getNewMessages (mkLog 101) 0 := by decide

/-- C5 counterexample: with a supplied sequence number 0, operator
`gt` and limit 0, the issued query string carries neither a
`sequencenumber` nor a `limit` parameter — JS truthiness drops the
zero-valued options, contradicting the claim that every supplied
sequence number and limit are passed through. -/
theorem c5_counterexample :
    queryParams ⟨some 0, some "asc", some 0, some "gt"⟩ = [("order", "asc")] ∧
    ("sequencenumber", "gt:0") ∉ queryParams ⟨some 0, some "asc", some 0, some "gt"⟩ ∧
    ("limit", "0") ∉ queryParams ⟨some 0, some "asc", some 0, some "gt"⟩ := by decide

/-- C5 amended: whenever a nonzero sequence number and a nonempty
operator are supplied, the issued parameters contain
`sequencenumber=op:n`; a supplied nonzero limit and a supplied nonempty
order are likewise passed through as `limit` and `order` parameters. -/
theorem c5_amended_params_passed (o : QueryOptions) (n : Nat) (op : String)
    (hn : o.sequenceNumber = some n) (hn0 : n ≠ 0)
    (hop : o.operator = some op) (hop0 : op ≠ "") :
    ("sequencenumber", op ++ ":" ++ toString n) ∈ queryParams o ∧
    (∀ l, o.limit = some l → l ≠ 0 → ("limit", toString l) ∈ queryParams o) ∧
    (∀ s, o.order = some s → s ≠ "" → ("order", s) ∈ queryParams o) := by
  refine ⟨?_, ?_, ?_⟩
  · have hsf : (buildRequest o).seqFilter = some (op, n) := by
      simp [buildRequest, hn, hop, hn0, hop0]
    simp [queryParams, renderParams, hsf, List.mem_append]
  · intro l hl hl0
    have hlim : (buildRequest o).limit = some l := by
      simp [buildRequest, hl, hl0]
    simp [queryParams, renderParams, hlim, List.mem_append]
  · intro s hs hs0
    have hord : (buildRequest o).order = some s := by
      simp [buildRequest, hs, hs0]
    simp [queryParams, renderParams, hord, List.mem_append]

/-- C5 witness: the amended statement evaluated at the concrete options
of the poller's query (limit 100, ascending, `gt:18`). -/
theorem c5_amended_params_passed_witness :
    ("sequencenumber", "gt" ++ ":" ++ toString (18 : Nat)) ∈
      queryParams ⟨some 100, some "asc", some 18, some "gt"⟩ ∧
    (∀ l, (⟨some 100, some "asc", some 18, some "gt"⟩ : QueryOptions).limit = some l →
      l ≠ 0 → ("limit", toString l) ∈ queryParams ⟨some 100, some "asc", some 18, some "gt"⟩) ∧
    (∀ s, (⟨some 100, some "asc", some 18, some "gt"⟩ : QueryOptions).order = some s →
      s ≠ "" → ("order", s) ∈ queryParams ⟨some 100, some "asc", some 18, some "gt"⟩) :=
  c5_amended_params_passed ⟨some 100, some "asc", some 18, some "gt"⟩
    18 "gt" rfl (by decide) rfl (by decide)

/-- C6 counterexample: two successful receipts that assign different
sequence numbers (7 and 8) to the submitted entry produce identical
results from `submitMessageToHCS` — the returned value is
`{success, topicId}` and carries no sequence number at all, so the
function cannot be returning the assigned sequence number. -/
theorem c6_counterexample :
    submitMessageToHCS "0.0.5" "hello" ⟨"SUCCESS", 7⟩
      = submitMessageToHCS "0.0.5" "hello" ⟨"SUCCESS", 8⟩ ∧
    (7 : Nat) ≠ 8 ∧
    (submitMessageToHCS "0.0.5" "hello" ⟨"SUCCESS", 7⟩).success = true := by decide

/-- C6 amended: on a successful receipt, `submitMessageToHCS` returns
`{success := true, topicId}`, independently of the sequence number the
log assigned; the assigned sequence number is not part of the result. -/
theorem c6_amended_submit_returns_topicId (topicId message : String)
    (receipt : TransactionReceipt) (h : isTransactionSuccessful receipt = true) :
    submitMessageToHCS topicId message receipt
      = { success := true, topicId := some topicId, error := none } := by
  simp [submitMessageToHCS, h]

/-- C6 witness: the amended statement at a concrete successful
receipt. -/
theorem c6_amended_submit_returns_topicId_witness :
    submitMessageToHCS "0.0.5" "hello" ⟨"SUCCESS", 7⟩
      = { success := true, topicId := some "0.0.5", error := none } :=
  c6_amended_submit_returns_topicId "0.0.5" "hello" ⟨"SUCCESS", 7⟩ (by decide)

/-- C7: `initializeClient` fails with the configuration error exactly
when `HEDERA_ACCOUNT_ID` or `HEDERA_PRIVATE_KEY` is unset or empty — in
the pure embedding the error is returned without any client value being
constructed and without retry; when both are set and nonempty it
returns a client whose operator is exactly that account id and key. -/
theorem c7_initializeClient_credentials (env : Env) :
    ((env.hederaAccountId = none ∨ env.hederaAccountId = some "" ∨
      env.hederaPrivateKey = none ∨ env.hederaPrivateKey = some "") →
      initializeClient env
        = .error "✗ Please set HEDERA_ACCOUNT_ID and HEDERA_PRIVATE_KEY environment variables") ∧
    (∀ a k, env.hederaAccountId = some a → a ≠ "" →
      env.hederaPrivateKey = some k → k ≠ "" →
      ∃ c, initializeClient env = .ok c ∧
        c.operatorAccountId = a ∧ c.operatorKey = k) := by
  constructor
  · intro h
    rcases h with h | h | h | h <;>
      simp [initializeClient, jsTruthyStr, h]
  · intro a k ha ha0 hk hk0
    have h1 : jsTruthyStr env.hederaAccountId = true := by simp [jsTruthyStr, ha, ha0]
    have h2 : jsTruthyStr env.hederaPrivateKey = true := by simp [jsTruthyStr, hk, hk0]
    simp only [initializeClient, h1, h2, Bool.not_true, Bool.or_self,
      Bool.false_or, Bool.or_false, if_neg (by decide : ¬ false = true),
      Bool.false_eq_true, if_false]
    exact ⟨_, rfl, by simp [ha], by simp [hk]⟩

/-- C7 witness: a missing account id yields the error; a concrete fully
configured environment yields a client operated by those
credentials. -/
theorem c7_initializeClient_credentials_witness :
    initializeClient ⟨none, some "key", none⟩
      = .error "✗ Please set HEDERA_ACCOUNT_ID and HEDERA_PRIVATE_KEY environment variables" ∧
    ∃ c, initializeClient ⟨some "0.0.2", some "key", none⟩ = .ok c ∧
      c.operatorAccountId = "0.0.2" ∧ c.operatorKey = "key" :=
  ⟨(c7_initializeClient_credentials ⟨none, some "key", none⟩).1 (Or.inl rfl),
   (c7_initializeClient_credentials ⟨some "0.0.2", some "key", none⟩).2
     "0.0.2" "key" rfl (by decide) rfl (by decide)⟩

/-- C8: with valid credentials, `initializeClient` succeeds for every
value of `HEDERA_NETWORK`, and the client targets mainnet exactly when
the selector is set and compares equal to "mainnet" case-insensitively;
every other value — unset (defaulted to "testnet"), empty, or
unrecognized — silently yields a testnet client rather than an
error. -/
theorem c8_network_selection (env : Env) (a k : String)
    (ha : env.hederaAccountId = some a) (ha0 : a ≠ "")
    (hk : env.hederaPrivateKey = some k) (hk0 : k ≠ "") :
    ∃ c, initializeClient env = .ok c ∧
      (c.network = "mainnet" ↔
        ∃ s, env.hederaNetwork = some s ∧ toLowerCase s = "mainnet") ∧
      (c.network = "mainnet" ∨ c.network = "testnet") := by
  have hok : ∀ net : String,
      (match env.hederaNetwork with
        | some s => if s = "" then "testnet" else s
        | none => "testnet") = net →
      initializeClient env
        = .ok ⟨if toLowerCase net = "mainnet" then "mainnet" else "testnet", a, k⟩ := by
    intro net hnet
    have h1 : jsTruthyStr env.hederaAccountId = true := by simp [jsTruthyStr, ha, ha0]
    have h2 : jsTruthyStr env.hederaPrivateKey = true := by simp [jsTruthyStr, hk, hk0]
    simp only [initializeClient, h1, h2, hnet, Bool.not_true, Bool.or_self,
      Bool.false_eq_true, if_false]
    simp [ha, hk]
  cases hnet : env.hederaNetwork with
  | none =>
    have hne : ¬ toLowerCase "testnet" = "mainnet" := by decide
    refine ⟨⟨"testnet", a, k⟩, ?_, ?_, Or.inr rfl⟩
    · have := hok "testnet" (by simp [hnet])
      rwa [if_neg hne] at this
    · constructor
      · intro h; exact absurd h (by simp)
      · rintro ⟨s, hs, -⟩; cases hs
  | some s =>
    by_cases hse : s = ""
    · subst hse
      have hne : ¬ toLowerCase "testnet" = "mainnet" := by decide
      refine ⟨⟨"testnet", a, k⟩, ?_, ?_, Or.inr rfl⟩
      · have := hok "testnet" (by simp [hnet])
        rwa [if_neg hne] at this
      · constructor
        · intro h; exact absurd h (by simp)
        · rintro ⟨t, ht, ht2⟩
          cases Option.some.inj ht
          exact absurd ht2 (by decide)
    · by_cases hm : toLowerCase s = "mainnet"
      · refine ⟨⟨"mainnet", a, k⟩, ?_, ?_, Or.inl rfl⟩
        · have := hok s (by simp [hnet, hse])
          rwa [if_pos hm] at this
        · exact ⟨fun _ => ⟨s, rfl, hm⟩, fun _ => rfl⟩
      · refine ⟨⟨"testnet", a, k⟩, ?_, ?_, Or.inr rfl⟩
        · have := hok s (by simp [hnet, hse])
          rwa [if_neg hm] at this
        · constructor
          · intro h; exact absurd h (by simp)
          · rintro ⟨t, ht, ht2⟩
            cases Option.some.inj ht
            exact absurd ht2 hm

/-- C8 witness: a mixed-case "MainNet" selector yields a mainnet
client; the conclusion instantiated at that concrete environment. -/
theorem c8_network_selection_witness :
    ∃ c, initializeClient ⟨some "0.0.2", some "key", some "MainNet"⟩ = .ok c ∧
      (c.network = "mainnet" ↔
        ∃ s, (⟨some "0.0.2", some "key", some "MainNet"⟩ : Env).hederaNetwork
              = some s ∧ toLowerCase s = "mainnet") ∧
      (c.network = "mainnet" ∨ c.network = "testnet") :=
  c8_network_selection ⟨some "0.0.2", some "key", some "MainNet"⟩
    "0.0.2" "key" rfl (by decide) rfl (by decide)

lemma seqOpHolds_gt (n s : Nat) : seqOpHolds "gt" n s = decide (n < s) := by
  simp [seqOpHolds]

lemma query_gt_page (log : List Entry) (hPos : ∀ m ∈ log, 1 ≤ m.sequence_number)
    (l : Nat) :
    queryTopicMessages log
      { sequenceNumber := some l, operator := some "gt",
        order := some "asc", limit := some 100 }
      = (log.filter (fun m => decide (l < m.sequence_number))).take 100 := by
  cases l with
  | zero =>
    have hfil : log.filter (fun m => decide (0 < m.sequence_number)) = log :=
      List.filter_eq_self.mpr (fun m hm => by
        have := hPos m hm; simp; omega)
    rw [hfil]
    simp [queryTopicMessages, buildRequest, mirrorExec]
  | succ k =>
    have hfil : log.filter (fun m => seqOpHolds "gt" (k + 1) m.sequence_number)
        = log.filter (fun m => decide (k + 1 < m.sequence_number)) :=
      List.filter_congr (fun m _ => seqOpHolds_gt (k + 1) m.sequence_number)
    simp only [queryTopicMessages, buildRequest, mirrorExec]
    simp [hfil]

lemma query_desc_one (log : List Entry) :
    queryTopicMessages log { order := some "desc", limit := some 1 }
      = log.reverse.take 1 := by
  simp [queryTopicMessages, buildRequest, mirrorExec]

lemma endOkB_none (m : Entry) : endOkB none m = true := rfl

lemma endOkB_some {e : Nat} (he : e ≠ 0) (m : Entry) :
    endOkB (some e) m = decide (m.sequence_number ≤ e) := by
  simp [endOkB, jsEndCheck, he, ← decide_not, Nat.not_lt]

lemma endOkB_zero (m : Entry) : endOkB (some 0) m = true := rfl

lemma lastSeqAux_concat (l : Nat) (xs : List Entry) (m : Entry) :
    lastSeqAux l (xs ++ [m]) = m.sequence_number := by
  simp [lastSeqAux, List.foldl_append]

lemma processPage_eq (startS : Nat) (endO : Option Nat) :
    ∀ (page : List Entry) (l : Nat) (acc : List Entry),
      (∀ m ∈ page, startS ≤ m.sequence_number) →
      processPage startS endO page l acc
        = (acc ++ page.takeWhile (endOkB endO),
           lastSeqAux l (page.takeWhile (endOkB endO)),
           !(page.dropWhile (endOkB endO)).isEmpty)
  | [], l, acc, _ => by
    simp [processPage, lastSeqAux]
  | m :: rest, l, acc, h => by
    by_cases hc : jsEndCheck endO m.sequence_number = true
    · have hok : endOkB endO m = false := by simp [endOkB, hc]
      rw [processPage, if_pos hc, List.takeWhile_cons, if_neg (by simp [hok]),
        List.dropWhile_cons, if_neg (by simp [hok])]
      simp [lastSeqAux]
    · have hok : endOkB endO m = true := by simp [endOkB, hc]
      have hpush : startS ≤ m.sequence_number := h m (List.mem_cons_self m rest)
      rw [processPage, if_neg hc, if_pos hpush,
        processPage_eq startS endO rest m.sequence_number (acc ++ [m])
          (fun x hx => h x (List.mem_cons_of_mem m hx)),
        List.takeWhile_cons, if_pos hok, List.dropWhile_cons, if_pos hok]
      simp [lastSeqAux]

lemma sorted_filter_eq_takeWhile (p : Entry → Bool)
    (hdc : ∀ a b : Entry, a.sequence_number ≤ b.sequence_number →
      p b = true → p a = true) :
    ∀ xs : List Entry,
      xs.Pairwise (fun a b => a.sequence_number < b.sequence_number) →
      xs.filter p = xs.takeWhile p
  | [], _ => rfl
  | x :: xs, hp => by
    obtain ⟨hx, hxs⟩ := List.pairwise_cons.mp hp
    by_cases hpx : p x = true
    · rw [List.filter_cons_of_pos hpx, List.takeWhile_cons, if_pos hpx,
        sorted_filter_eq_takeWhile p hdc xs hxs]
    · rw [List.filter_cons_of_neg (by simp [hpx]), List.takeWhile_cons,
        if_neg (by simp [hpx])]
      refine List.filter_eq_nil_iff.mpr (fun y hy hpy => ?_)
      exact hpx (hdc x y (Nat.le_of_lt (hx y hy)) hpy)

lemma takeWhile_append_of_stop (p : Entry → Bool) :
    ∀ (xs ys : List Entry), xs.dropWhile p ≠ [] →
      (xs ++ ys).takeWhile p = xs.takeWhile p
  | [], _, h => absurd rfl h
  | x :: xs, ys, h => by
    by_cases hpx : p x = true
    · have hxs : xs.dropWhile p ≠ [] := by
        rw [List.dropWhile_cons, if_pos hpx] at h; exact h
      rw [List.cons_append, List.takeWhile_cons, if_pos hpx,
        List.takeWhile_cons, if_pos hpx, takeWhile_append_of_stop p xs ys hxs]
    · rw [List.cons_append, List.takeWhile_cons, if_neg hpx,
        List.takeWhile_cons, if_neg hpx]

lemma filter_after_take (log : List Entry)
    (hSorted : log.Pairwise (fun a b => a.sequence_number < b.sequence_number))
    (l k : Nat) (q : List Entry) (mL : Entry)
    (hdecomp : (log.filter (fun m => decide (l < m.sequence_number))).take k
      = q ++ [mL]) :
    log.filter (fun m => decide (mL.sequence_number < m.sequence_number))
      = (log.filter (fun m => decide (l < m.sequence_number))).drop k := by
  set rest := log.filter (fun m => decide (l < m.sequence_number)) with hrest
  have hsorted_rest :
      rest.Pairwise (fun a b => a.sequence_number < b.sequence_number) :=
    List.Pairwise.sublist (List.filter_sublist log) hSorted
  have hparts : rest = (q ++ [mL]) ++ rest.drop k := by
    conv_lhs => rw [← List.take_append_drop k rest]
    rw [← hdecomp, hrest]
  have hmLrest : mL ∈ rest := by
    rw [hparts]
    exact List.mem_append_left _ (List.mem_append_right _ (List.mem_singleton.mpr rfl))
  have hlmL : l < mL.sequence_number := by
    rw [hrest] at hmLrest
    exact of_decide_eq_true (List.mem_filter.mp hmLrest).2
  have hsplit := hsorted_rest
  rw [hparts] at hsplit
  obtain ⟨hsort_qm, hsort_tail, hcross⟩ := List.pairwise_append.mp hsplit
  have htail_gt : ∀ y ∈ rest.drop k, mL.sequence_number < y.sequence_number :=
    fun y hy => hcross mL (List.mem_append_right _ (List.mem_singleton.mpr rfl)) y hy
  have hqm_le : ∀ x ∈ q ++ [mL], ¬ mL.sequence_number < x.sequence_number := by
    intro x hx
    rcases List.mem_append.mp hx with hxq | hxm
    · obtain ⟨-, -, hc2⟩ := List.pairwise_append.mp hsort_qm
      have := hc2 x hxq mL (List.mem_singleton.mpr rfl)
      omega
    · have hxe : x = mL := List.mem_singleton.mp hxm
      subst hxe; omega
  have step1 : log.filter (fun m => decide (mL.sequence_number < m.sequence_number))
      = rest.filter (fun m => decide (mL.sequence_number < m.sequence_number)) := by
    rw [hrest, List.filter_filter]
    refine (List.filter_congr (fun m _ => ?_)).symm
    by_cases hm : mL.sequence_number < m.sequence_number
    · have hl2 : l < m.sequence_number := by omega
      simp [hm, hl2]
    · simp [hm]
  rw [step1]
  conv_lhs => rw [hparts]
  rw [List.filter_append,
    List.filter_eq_nil_iff.mpr (fun x hx => by simpa using hqm_le x hx),
    List.filter_eq_self.mpr (fun y hy => by simpa using htail_gt y hy),
    List.nil_append]

lemma rangeLoop_honest (log : List Entry) (startS : Nat) (endO : Option Nat)
    (hSorted : log.Pairwise (fun a b => a.sequence_number < b.sequence_number))
    (hPos : ∀ m ∈ log, 1 ≤ m.sequence_number) :
    ∀ (fuel l : Nat) (acc : List Entry), startS - 1 ≤ l →
      (log.filter (fun m => decide (l < m.sequence_number))).length < fuel →
      rangeLoop (queryTopicMessages log) startS endO fuel l acc
        = some (acc ++
            (log.filter (fun m => decide (l < m.sequence_number))).filter
              (fun m => decide (startS ≤ m.sequence_number) && endOkB endO m)) := by
  intro fuel
  induction fuel with
  | zero => intro l acc _ h; exact absurd h (Nat.not_lt_zero _)
  | succ fuel ih =>
    intro l acc hl hfuel
    have hpage := query_gt_page log hPos l
    set rest := log.filter (fun m => decide (l < m.sequence_number)) with hrest
    simp only [rangeLoop]
    rw [hpage]
    by_cases hres : rest = []
    · rw [hres]; simp
    · have h1 : rest.take 100 ≠ [] := by
        intro hcon
        rcases List.take_eq_nil_iff.mp hcon with h | h
        · exact absurd h (by decide)
        · exact hres h
      rw [List.isEmpty_eq_false.mpr h1]
      simp only [Bool.false_eq_true, if_false]
      have hstart : ∀ m ∈ rest.take 100, startS ≤ m.sequence_number := by
        intro m hm
        have hmr := List.take_subset _ _ hm
        rw [hrest] at hmr
        have hlm : l < m.sequence_number :=
          of_decide_eq_true (List.mem_filter.mp hmr).2
        omega
      rw [processPage_eq startS endO _ l acc hstart]
      dsimp only
      by_cases hdw : (rest.take 100).dropWhile (endOkB endO) = []
      · -- the page was scanned to its end without tripping the end bound
        have htw : (rest.take 100).takeWhile (endOkB endO) = rest.take 100 := by
          have h2 := List.takeWhile_append_dropWhile (endOkB endO) (rest.take 100)
          rw [hdw, List.append_nil] at h2
          exact h2
        have hallok := List.dropWhile_eq_nil_iff.mp hdw
        rw [hdw]
        simp only [List.isEmpty_nil, Bool.not_true, Bool.false_eq_true, if_false]
        have hlen := List.length_take 100 rest
        rw [inf_eq_min] at hlen
        by_cases hshort : (rest.take 100).length < 100
        · -- short page: the whole remainder was returned; the loop ends
          rw [if_pos hshort, htw]
          have hfull : rest.take 100 = rest := List.take_of_length_le (by omega)
          rw [hfull]
          have hkeep : rest.filter
              (fun m => decide (startS ≤ m.sequence_number) && endOkB endO m) = rest :=
            List.filter_eq_self.mpr (fun m hm => by
              have hA := hstart m (by rw [hfull]; exact hm)
              have hB := hallok m (by rw [hfull]; exact hm)
              simp [hA, hB])
          rw [hkeep]
        · -- full page: the loop re-fetches from the page's last sequence number
          rw [if_neg hshort, htw]
          have hlen100 : (rest.take 100).length = 100 := by omega
          obtain ⟨q, mL, hsnoc⟩ : ∃ q mL, rest.take 100 = q ++ [mL] := by
            rcases List.eq_nil_or_concat (rest.take 100) with h | ⟨q, mL, h⟩
            · exact absurd h h1
            · exact ⟨q, mL, by rw [h, List.concat_eq_append]⟩
          rw [hsnoc, lastSeqAux_concat, ← hsnoc]
          have hmLpage : mL ∈ rest.take 100 := by
            rw [hsnoc]
            exact List.mem_append_right _ (List.mem_singleton.mpr rfl)
          have hmLrest : mL ∈ rest := List.take_subset _ _ hmLpage
          have hlmL : l < mL.sequence_number := by
            rw [hrest] at hmLrest
            exact of_decide_eq_true (List.mem_filter.mp hmLrest).2
          have hdrop : log.filter
              (fun m => decide (mL.sequence_number < m.sequence_number))
              = rest.drop 100 := by
            rw [hrest]
            exact filter_after_take log hSorted l 100 q mL (by rw [← hrest]; exact hsnoc)
          have hfuel2 : (log.filter
              (fun m => decide (mL.sequence_number < m.sequence_number))).length < fuel := by
            rw [hdrop, List.length_drop]
            omega
          rw [ih mL.sequence_number (acc ++ rest.take 100) (by omega) hfuel2, hdrop]
          have hsplit : rest.take 100 ++ rest.drop 100 = rest := List.take_append_drop 100 rest
          have hfmerge : rest.filter
              (fun m => decide (startS ≤ m.sequence_number) && endOkB endO m)
              = rest.take 100 ++ (rest.drop 100).filter
                  (fun m => decide (startS ≤ m.sequence_number) && endOkB endO m) := by
            conv_lhs => rw [← hsplit]
            rw [List.filter_append]
            congr 1
            exact List.filter_eq_self.mpr (fun m hm => by
              simp [hstart m hm, hallok m hm])
          rw [hfmerge, List.append_assoc]
      · -- the end bound was passed inside the page: the loop stops there
        have hsorted_rest :
            rest.Pairwise (fun a b => a.sequence_number < b.sequence_number) := by
          rw [hrest]
          exact List.Pairwise.sublist (List.filter_sublist log) hSorted
        have hstop : ((rest.take 100).dropWhile (endOkB endO)).isEmpty = false :=
          List.isEmpty_eq_false.mpr hdw
        rw [hstop]
        simp only [Bool.not_false, if_true]
        cases endO with
        | none =>
          exact absurd (List.dropWhile_eq_nil_iff.mpr (fun m _ => endOkB_none m)) hdw
        | some e =>
          rcases Nat.eq_zero_or_pos e with he0 | hepos
          · subst he0
            exact absurd (List.dropWhile_eq_nil_iff.mpr (fun m _ => endOkB_zero m)) hdw
          · have he0 : e ≠ 0 := by omega
            have hstep1 : rest.filter
                (fun m => decide (startS ≤ m.sequence_number) && endOkB (some e) m)
                = rest.filter (endOkB (some e)) := by
              refine List.filter_congr (fun m hm => ?_)
              have hA : startS ≤ m.sequence_number := by
                rw [hrest] at hm
                have := of_decide_eq_true (List.mem_filter.mp hm).2
                omega
              simp [hA]
            have hstep2 : rest.filter (endOkB (some e))
                = rest.takeWhile (endOkB (some e)) :=
              sorted_filter_eq_takeWhile (endOkB (some e))
                (fun a b hab hb => by
                  rw [endOkB_some he0] at hb
                  rw [endOkB_some he0]
                  simp only [decide_eq_true_eq] at hb ⊢
                  omega)
                rest hsorted_rest
            have hstep3 : rest.takeWhile (endOkB (some e))
                = (rest.take 100).takeWhile (endOkB (some e)) := by
              conv_lhs => rw [← List.take_append_drop 100 rest]
              exact takeWhile_append_of_stop _ _ _ hdw
            rw [hstep1, hstep2, hstep3]

lemma takeWhile_endOkB_none (xs : List Entry) : xs.takeWhile (endOkB none) = xs := by
  induction xs with
  | nil => rfl
  | cons x xs ih => rw [List.takeWhile_cons, if_pos (endOkB_none x), ih]

lemma dropWhile_endOkB_none (xs : List Entry) : xs.dropWhile (endOkB none) = [] := by
  induction xs with
  | nil => rfl
  | cons x xs ih => rw [List.dropWhile_cons, if_pos (endOkB_none x)]; exact ih

lemma badQuery_loops : ∀ (fuel l : Nat) (acc : List Entry),
    rangeLoop badQuery 1 none fuel l acc = none
  | 0, _, _ => rfl
  | fuel + 1, l, acc => by
    have hstart : ∀ m ∈ List.replicate 100 (⟨5, "stuck"⟩ : Entry),
        (1 : Nat) ≤ m.sequence_number := by
      intro m hm
      rw [List.eq_of_mem_replicate hm]
      decide
    have hne : List.replicate 100 (⟨5, "stuck"⟩ : Entry) ≠ [] := by
      simp [List.replicate]
    simp only [rangeLoop]
    have hpage : badQuery
        { sequenceNumber := some l, operator := some "gt",
          order := some "asc", limit := some 100 }
        = List.replicate 100 ⟨5, "stuck"⟩ := rfl
    rw [hpage, List.isEmpty_eq_false.mpr hne]
    simp only [Bool.false_eq_true, if_false]
    rw [processPage_eq 1 none _ l acc hstart]
    dsimp only
    rw [takeWhile_endOkB_none, dropWhile_endOkB_none]
    simp only [List.isEmpty_nil, Bool.not_true, Bool.false_eq_true, if_false]
    rw [if_neg (by simp)]
    have hlast : lastSeqAux l (List.replicate 100 (⟨5, "stuck"⟩ : Entry)) = 5 := rfl
    rw [hlast]
    exact badQuery_loops fuel 5 (acc ++ List.replicate 100 ⟨5, "stuck"⟩)

/-- C2 amended: with cursor c, `getNewMessages` performs one single
query (gt filter omitted when c = 0 by JS truthiness, which changes
nothing for a log whose sequence numbers are all positive) and returns
the first at-most-100 entries of sequence number greater than c, in
ascending order.  It does not re-fetch when the page is full-sized, so a
backlog beyond 100 entries is truncated (the drain loop exists only in
`getMessagesInRange`). -/
theorem c2_amended_single_page (log : List Entry) (c : Nat)
    (hSorted : log.Pairwise (fun a b => a.sequence_number < b.sequence_number))
    (hPos : ∀ m ∈ log, 1 ≤ m.sequence_number) :
    getNewMessages log c
      = (log.filter (fun m => decide (c < m.sequence_number))).take 100 ∧
    (getNewMessages log c).Pairwise
      (fun a b => a.sequence_number < b.sequence_number) := by
  have h : getNewMessages log c
      = (log.filter (fun m => decide (c < m.sequence_number))).take 100 :=
    query_gt_page log hPos c
  refine ⟨h, ?_⟩
  rw [h]
  exact List.Pairwise.sublist
    (List.Sublist.trans (List.take_sublist _ _) (List.filter_sublist _)) hSorted

/-- C2 amended witness: the single-page behaviour evaluated at the
three-entry log with cursor 1. -/
theorem c2_amended_single_page_witness :
    getNewMessages log3 1
      = (log3.filter (fun m => decide (1 < m.sequence_number))).take 100 ∧
    (getNewMessages log3 1).Pairwise
      (fun a b => a.sequence_number < b.sequence_number) :=
  c2_amended_single_page log3 1 (by decide) (by decide)

/-- C4: for a log of positive, strictly ascending sequence numbers and
bounds 1 <= startSequence <= endSequence, `getMessagesInRange` (given
fuel for its while loop) returns exactly the entries with
startSequence <= sequence_number <= endSequence, in ascending sequence
order, by re-fetching pages of at most 100 entries from the last
sequence number seen. -/
theorem c4_getMessagesInRange_range (log : List Entry) (startS endS : Nat)
    (hSorted : log.Pairwise (fun a b => a.sequence_number < b.sequence_number))
    (hPos : ∀ m ∈ log, 1 ≤ m.sequence_number)
    (h1 : 1 ≤ startS) (h2 : startS ≤ endS) :
    getMessagesInRange log startS (some endS) (log.length + 1)
      = some (log.filter (fun m =>
          decide (startS ≤ m.sequence_number) && decide (m.sequence_number ≤ endS))) ∧
    (log.filter (fun m =>
        decide (startS ≤ m.sequence_number) && decide (m.sequence_number ≤ endS))).Pairwise
      (fun a b => a.sequence_number < b.sequence_number) := by
  constructor
  · have hmain := rangeLoop_honest log startS (some endS) hSorted hPos (log.length + 1)
      (startS - 1) [] (Nat.le_refl _) (Nat.lt_succ_of_le (List.length_filter_le _ _))
    have hstep : getMessagesInRange log startS (some endS) (log.length + 1)
        = rangeLoop (queryTopicMessages log) startS (some endS) (log.length + 1)
            (startS - 1) [] := rfl
    rw [hstep, hmain, List.nil_append]
    congr 1
    rw [List.filter_filter]
    refine List.filter_congr (fun m _ => ?_)
    have hz : endS ≠ 0 := by omega
    by_cases hx : startS ≤ m.sequence_number
    · have hw : startS - 1 < m.sequence_number := by omega
      by_cases hy : m.sequence_number ≤ endS
      · simp [hx, hw, hy, endOkB_some hz]
      · simp [hx, hw, hy, endOkB_some hz]
    · simp [hx, endOkB_some hz]
  · exact List.Pairwise.sublist (List.filter_sublist _) hSorted

/-- C4 witness: the range query evaluated on the five-entry log with
bounds 2..4. -/
theorem c4_getMessagesInRange_range_witness :
    getMessagesInRange (mkLog 5) 2 (some 4) ((mkLog 5).length + 1)
      = some ((mkLog 5).filter (fun m =>
          decide (2 ≤ m.sequence_number) && decide (m.sequence_number ≤ 4))) ∧
    ((mkLog 5).filter (fun m =>
        decide (2 ≤ m.sequence_number) && decide (m.sequence_number ≤ 4))).Pairwise
      (fun a b => a.sequence_number < b.sequence_number) :=
  c4_getMessagesInRange_range (mkLog 5) 2 4 (by decide) (by decide)
    (by decide) (by decide)

/-- C9: over logs of positive, strictly ascending sequence numbers,
`getLatestSequenceNumber` returns `none` exactly when the log is empty,
and otherwise the greatest sequence number present (via one descending
limit-1 query); and an entry of sequence number 0 — excluded by the
positivity precondition — would also be reported as `none` because JS
`|| null` treats 0 as falsy. -/
theorem c9_latest_sequence_number (log : List Entry)
    (hSorted : log.Pairwise (fun a b => a.sequence_number < b.sequence_number))
    (hPos : ∀ m ∈ log, 1 ≤ m.sequence_number) :
    (getLatestSequenceNumber log = none ↔ log = []) ∧
    (∀ s, getLatestSequenceNumber log = some s →
      (∃ m ∈ log, m.sequence_number = s) ∧ ∀ m ∈ log, m.sequence_number ≤ s) ∧
    getLatestSequenceNumber [⟨0, "z"⟩] = none := by
  have hq := query_desc_one log
  have hchar : ∀ (q : List Entry) (mLast : Entry), log = q ++ [mLast] →
      getLatestSequenceNumber log = some mLast.sequence_number := by
    intro q mLast hcat
    have hm : mLast ∈ log := by
      rw [hcat]; exact List.mem_append_right _ (List.mem_singleton.mpr rfl)
    have hz : mLast.sequence_number ≠ 0 := by have := hPos mLast hm; omega
    have hrev : (q ++ [mLast]).reverse = mLast :: q.reverse := by simp
    simp only [getLatestSequenceNumber]
    rw [hq, hcat, hrev]
    simp [hz]
  refine ⟨⟨?_, ?_⟩, ?_, by decide⟩
  · intro hres
    rcases List.eq_nil_or_concat log with hnil | ⟨q, mLast, hcat⟩
    · exact hnil
    · rw [List.concat_eq_append] at hcat
      rw [hchar q mLast hcat] at hres
      cases hres
  · intro hnil
    rw [hnil]
    decide
  · intro s hs
    rcases List.eq_nil_or_concat log with hnil | ⟨q, mLast, hcat⟩
    · rw [hnil] at hs
      cases hs
    · rw [List.concat_eq_append] at hcat
      rw [hchar q mLast hcat] at hs
      injection hs with hs2
      constructor
      · exact ⟨mLast, by rw [hcat]; exact List.mem_append_right _ (List.mem_singleton.mpr rfl), hs2⟩
      · intro m hm
        have hp := hSorted
        rw [hcat] at hp hm
        obtain ⟨-, -, hcross⟩ := List.pairwise_append.mp hp
        rcases List.mem_append.mp hm with hmq | hmm
        · have := hcross m hmq mLast (List.mem_singleton.mpr rfl)
          omega
        · rw [List.mem_singleton.mp hmm, hs2]

/-- C9 witness: the characterization evaluated at the three-entry log
1..3. -/
theorem c9_latest_sequence_number_witness :
    (getLatestSequenceNumber (mkLog 3) = none ↔ mkLog 3 = []) ∧
    (∀ s, getLatestSequenceNumber (mkLog 3) = some s →
      (∃ m ∈ mkLog 3, m.sequence_number = s) ∧ ∀ m ∈ mkLog 3, m.sequence_number ≤ s) ∧
    getLatestSequenceNumber [⟨0, "z"⟩] = none :=
  c9_latest_sequence_number (mkLog 3) (by decide) (by decide)

/-- C10: for every finite log of positive, strictly ascending sequence
numbers — whose query responses therefore honor the requested `gt`
filter — `getMessagesInRange` terminates within `log.length + 1` loop
iterations; and without that precondition the while loop need not
terminate: a query source that keeps answering a full page that ignores
the `gt` bound makes the loop run forever (`none` for every fuel). -/
theorem c10_termination_behaviour :
    (∀ (log : List Entry) (startSequence : Nat) (endSequence : Option Nat),
      log.Pairwise (fun a b => a.sequence_number < b.sequence_number) →
      (∀ m ∈ log, 1 ≤ m.sequence_number) →
      getMessagesInRange log startSequence endSequence (log.length + 1) ≠ none) ∧
    (∀ (fuel lastSequence : Nat) (acc : List Entry),
      rangeLoop badQuery 1 none fuel lastSequence acc = none) := by
  constructor
  · intro log s endO hSorted hPos
    have hmain := rangeLoop_honest log s endO hSorted hPos (log.length + 1) (s - 1) []
      (Nat.le_refl _) (Nat.lt_succ_of_le (List.length_filter_le _ _))
    have hstep : getMessagesInRange log s endO (log.length + 1)
        = rangeLoop (queryTopicMessages log) s endO (log.length + 1) (s - 1) [] := rfl
    rw [hstep, hmain]
    simp
  · exact badQuery_loops

/-- C10 witness: termination on the concrete three-entry log, and the
diverging loop under the dishonest query source at fuel 5. -/
theorem c10_termination_behaviour_witness :
    getMessagesInRange log3 1 none (log3.length + 1) ≠ none ∧
    rangeLoop badQuery 1 none 5 0 [] = none :=
  ⟨c10_termination_behaviour.1 log3 1 none (by decide) (by decide),
   c10_termination_behaviour.2 5 0 []⟩

end Hiero
